import Mathlib

/-!
Verification development for the cearch indexing-and-retrieval pipeline.

The definitions below are a shallow embedding of the Rust sources:
  - src/db.rs      : sqlite-backed vector store (DB.insert_symbol, DB.knn, DB.open_read)
  - src/symbols.rs : tree-sitter based symbol extraction (enumerate_symbols_in_file)
  - src/main.rs    : the Index orchestrator loop and the Clean command
Embeddings are lists of rationals (the Rust code uses f32; distances here are
exact squared L2 distances, which induce the same ordering as the L2 metric
the sqlite-vec engine computes). External engines (sqlite, tree-sitter,
fastembed) are modelled at their interfaces: sqlite row storage is explicit
state, tree-sitter is an oracle producing matches, the embedder is an oracle
from snippet batches to vectors.
-/

/-! ## Vector store model (src/db.rs) -/

/-- Row of the sqlite table named symbols: id INTEGER PRIMARY KEY plus metadata. -/
structure SymRow where
  id : Nat
  path : String
  line : Nat
  kind : String
  name : String
  code : String
deriving DecidableEq, Repr

/-- Row of the vec0 virtual table named vec_index: rowid plus the embedding. -/
structure VecRow where
  id : Nat
  emb : List ℚ
deriving DecidableEq, Repr

/-- State of the sqlite database underlying DB: the two tables, the configured
vector dimension baked into the vec0 schema, and the next fresh rowid. -/
structure DBState where
  dim : Nat
  symbols : List SymRow
  vec_index : List VecRow
  nextId : Nat
deriving DecidableEq, Repr

/-- Squared Euclidean distance between two vectors, the ordering key used by
the vec0 MATCH query (sqlite-vec computes L2; squaring preserves the order
and makes distance zero coincide exactly). -/
def dist2 (u v : List ℚ) : ℚ :=
  (List.zipWith (fun a b => (a - b) * (a - b)) u v).sum

/-- Model of DB.insert_symbol: inside one transaction, insert the metadata row
into symbols, read the fresh rowid, then insert the vector row into vec_index.
The vec0 virtual table rejects an embedding whose length differs from the
schema dimension; the error propagates and the transaction is rolled back on
drop, restoring the pre-call state. Returns the post-call state and the error,
if any. -/
def insert_symbol (db : DBState) (path : String) (line : Nat)
    (kind name code : String) (emb : List ℚ) : DBState × Option String :=
  let snapshot := db
  let rowid := db.nextId
  let db1 : DBState :=
    { db with
      symbols := db.symbols ++ [⟨rowid, path, line, kind, name, code⟩]
      nextId := rowid + 1 }
  if emb.length = db.dim then
    ({ db1 with vec_index := db1.vec_index ++ [⟨rowid, emb⟩] }, none)
  else
    (snapshot, some "vec_index insert failed: dimension mismatch")

/-- Ordering relation used for the inner ORDER BY distance of the knn query. -/
def distLE (a b : Nat × ℚ) : Prop := a.2 ≤ b.2

instance : DecidableRel distLE := fun a b => inferInstanceAs (Decidable (a.2 ≤ b.2))

instance : IsTotal (Nat × ℚ) distLE := ⟨fun a b => le_total a.2 b.2⟩

instance : IsTrans (Nat × ℚ) distLE := ⟨fun _ _ _ h1 h2 => le_trans h1 h2⟩

/-- Ordering relation used for the outer ORDER BY v.distance of the knn query. -/
def resLE (a b : String × Nat × String × ℚ) : Prop := a.2.2.2 ≤ b.2.2.2

instance : DecidableRel resLE := fun a b => inferInstanceAs (Decidable (a.2.2.2 ≤ b.2.2.2))

instance : IsTotal (String × Nat × String × ℚ) resLE := ⟨fun a b => le_total a.2.2.2 b.2.2.2⟩

instance : IsTrans (String × Nat × String × ℚ) resLE := ⟨fun _ _ _ h1 h2 => le_trans h1 h2⟩

/-- Model of DB.knn: the inner subquery scores every vec_index row against the
query vector, orders by distance, and keeps LIMIT k rows; the outer query joins
each kept rowid with its symbols row and orders by distance again. The vec0
MATCH operator rejects a query vector whose length differs from the schema
dimension. -/
def knnScored (db : DBState) (q : List ℚ) : List (Nat × ℚ) :=
  db.vec_index.map (fun v => (v.id, dist2 q v.emb))

/-- Rows produced by the SELECT of DB.knn once the MATCH constraint has
accepted the query vector: score all vectors, order by distance, keep LIMIT k,
join with the symbols table, order by distance again. -/
def knnRows (db : DBState) (q : List ℚ) (k : Nat) :
    List (String × Nat × String × ℚ) :=
  List.insertionSort resLE
    (((List.insertionSort distLE (knnScored db q)).take k).filterMap (fun r =>
      (db.symbols.find? (fun s => s.id == r.1)).map
        (fun s => (s.path, s.line, s.name, r.2))))

def knn (db : DBState) (q : List ℚ) (k : Nat) :
    Except String (List (String × Nat × String × ℚ)) :=
  if q.length = db.dim then
    Except.ok (knnRows db q k)
  else
    Except.error "knn failed: query dimension mismatch"

/-- Well-formedness of a store state, the invariants sqlite enforces for states
reachable through insert_symbol: every vector row has a matching metadata row,
primary-key ids are distinct and below the next fresh rowid, and every stored
vector has the schema dimension. -/
def WF (db : DBState) : Prop :=
  (∀ v ∈ db.vec_index, ∃ s ∈ db.symbols, s.id = v.id) ∧
  (db.symbols.map SymRow.id).Nodup ∧
  (∀ v ∈ db.vec_index, v.emb.length = db.dim) ∧
  (∀ s ∈ db.symbols, s.id < db.nextId)

instance (db : DBState) : Decidable (WF db) := by
  unfold WF; infer_instance

/-- Successful inserts preserve well-formedness; failed inserts leave the state
untouched, so they preserve it trivially. -/
theorem insert_symbol_WF (db : DBState) (path : String) (line : Nat)
    (kind name code : String) (emb : List ℚ) (h : WF db) :
    WF (insert_symbol db path line kind name code emb).1 := by
  obtain ⟨hvs, hnd, hvd, hlt⟩ := h
  unfold insert_symbol
  by_cases hlen : emb.length = db.dim
  · rw [if_pos hlen]
    refine ⟨?_, ?_, ?_, ?_⟩
    · intro v hv
      rcases List.mem_append.mp hv with hv | hv
      · obtain ⟨s, hs, hid⟩ := hvs v hv
        exact ⟨s, List.mem_append.mpr (Or.inl hs), hid⟩
      · simp only [List.mem_singleton] at hv
        subst hv
        exact ⟨⟨db.nextId, path, line, kind, name, code⟩,
          List.mem_append.mpr (Or.inr (List.mem_singleton.mpr rfl)), rfl⟩
    · rw [List.map_append]
      apply List.Nodup.append hnd (List.nodup_singleton _)
      intro a ha hb
      simp only [List.map_cons, List.map_nil, List.mem_singleton] at hb
      subst hb
      obtain ⟨s, hs, hid⟩ := List.mem_map.mp ha
      exact absurd (hid ▸ hlt s hs) (lt_irrefl _)
    · intro v hv
      rcases List.mem_append.mp hv with hv | hv
      · exact hvd v hv
      · simp only [List.mem_singleton] at hv
        subst hv
        exact hlen
    · intro s hs
      rcases List.mem_append.mp hs with hs | hs
      · exact Nat.lt_succ_of_lt (hlt s hs)
      · simp only [List.mem_singleton] at hs
        subst hs
        exact Nat.lt_succ_self _
  · rw [if_neg hlen]
    exact ⟨hvs, hnd, hvd, hlt⟩

/-- C1: inserting an embedding whose length differs from the configured
dimension fails with an error and leaves both tables untouched: the
transaction rolls back, so neither the symbols row nor the vec_index row
survives. -/
theorem c1_insert_dim_mismatch_fails_no_partial_write
    (db : DBState) (path : String) (line : Nat) (kind name code : String)
    (emb : List ℚ) (h : emb.length ≠ db.dim) :
    (insert_symbol db path line kind name code emb).2.isSome = true ∧
    (insert_symbol db path line kind name code emb).1.symbols = db.symbols ∧
    (insert_symbol db path line kind name code emb).1.vec_index = db.vec_index ∧
    (insert_symbol db path line kind name code emb).1 = db := by
  unfold insert_symbol
  rw [if_neg h]
  exact ⟨rfl, rfl, rfl, rfl⟩

/-- Witness for C1 at a concrete store of dimension 1 and an embedding of
length 2: the insert reports an error and the state is unchanged. -/
theorem c1_witness :
    ([(0 : ℚ), 1].length ≠ (⟨1, [], [], 1⟩ : DBState).dim) ∧
    ((insert_symbol ⟨1, [], [], 1⟩ "a.py" 1 "fn" "foo" "def foo(): pass" [0, 1]).2.isSome = true ∧
     (insert_symbol ⟨1, [], [], 1⟩ "a.py" 1 "fn" "foo" "def foo(): pass" [0, 1]).1.symbols = [] ∧
     (insert_symbol ⟨1, [], [], 1⟩ "a.py" 1 "fn" "foo" "def foo(): pass" [0, 1]).1.vec_index = [] ∧
     (insert_symbol ⟨1, [], [], 1⟩ "a.py" 1 "fn" "foo" "def foo(): pass" [0, 1]).1 = ⟨1, [], [], 1⟩) :=
  ⟨by decide, c1_insert_dim_mismatch_fails_no_partial_write ⟨1, [], [], 1⟩ "a.py" 1 "fn" "foo"
    "def foo(): pass" [0, 1] (by decide)⟩

/-- A filterMap whose function succeeds on every element preserves length. -/
theorem length_filterMap_of_isSome {α β : Type} (f : α → Option β) :
    ∀ (l : List α), (∀ x ∈ l, (f x).isSome = true) →
      (l.filterMap f).length = l.length := by
  intro l
  induction l with
  | nil => intro _; rfl
  | cons a t ih =>
    intro h
    have ha := h a (List.mem_cons_self a t)
    obtain ⟨b, hb⟩ := Option.isSome_iff_exists.mp ha
    rw [List.filterMap_cons, hb]
    simp only [List.length_cons]
    rw [ih (fun x hx => h x (List.mem_cons_of_mem a hx))]

/-- C3: for a well-formed store with N indexed vectors and a query vector of
the schema dimension, knn returns exactly min(N, k) results in non-decreasing
distance order, and k = 0 yields the empty sequence rather than an error. -/
theorem c3_knn_count_and_order (db : DBState) (q : List ℚ) (k : Nat)
    (hwf : WF db) (hq : q.length = db.dim) :
    ∃ res, knn db q k = Except.ok res ∧
      res.length = min db.vec_index.length k ∧
      List.Sorted resLE res ∧
      (k = 0 → res = []) := by
  obtain ⟨hvs, _, _, _⟩ := hwf
  refine ⟨knnRows db q k, ?_, ?_, ?_, ?_⟩
  · unfold knn
    rw [if_pos hq]
  · have hlen1 : ∀ r ∈ (List.insertionSort distLE (knnScored db q)).take k,
        ((db.symbols.find? (fun s => s.id == r.1)).map
          (fun s => (s.path, s.line, s.name, r.2))).isSome = true := by
      intro r hr
      have hr2 : r ∈ List.insertionSort distLE (knnScored db q) :=
        List.take_subset k _ hr
      have hr3 : r ∈ knnScored db q :=
        (List.perm_insertionSort distLE _).subset hr2
      obtain ⟨v, hv, hveq⟩ := List.mem_map.mp hr3
      obtain ⟨s, hs, hsid⟩ := hvs v hv
      have hf : (db.symbols.find? (fun s => s.id == r.1)).isSome = true :=
        List.find?_isSome.mpr ⟨s, hs, by rw [hsid, ← hveq]; simp⟩
      obtain ⟨x, hx⟩ := Option.isSome_iff_exists.mp hf
      rw [hx]
      rfl
    unfold knnRows
    rw [List.length_insertionSort]
    rw [length_filterMap_of_isSome _ _ hlen1]
    rw [List.length_take, List.length_insertionSort]
    unfold knnScored
    rw [List.length_map]
    exact Nat.min_comm k db.vec_index.length
  · exact List.sorted_insertionSort resLE _
  · intro hk
    subst hk
    unfold knnRows
    simp

/-- Concrete one-row store used to instantiate the knn theorems. -/
def demoDB1 : DBState :=
  ⟨1, [⟨1, "a.py", 1, "fn", "foo", "def foo(): pass"⟩], [⟨1, [0]⟩], 2⟩

/-- Witness for C3 at a concrete one-vector store with k = 5: the theorem
applies and its hypotheses hold by evaluation. -/
theorem c3_witness :
    ∃ res, knn demoDB1 [(1 : ℚ)] 5 = Except.ok res ∧
      res.length = min demoDB1.vec_index.length 5 ∧
      List.Sorted resLE res ∧
      (5 = 0 → res = []) :=
  c3_knn_count_and_order demoDB1 [(1 : ℚ)] 5 (by decide) (by decide)

/-- The squared distance from a vector to itself is zero. -/
theorem dist2_self (u : List ℚ) : dist2 u u = 0 := by
  induction u with
  | nil => rfl
  | cons a t ih =>
    unfold dist2 at *
    simp only [List.zipWith_cons_cons, List.sum_cons, ih]
    ring

/-- Squared distances are non-negative. -/
theorem dist2_nonneg (u : List ℚ) : ∀ v, 0 ≤ dist2 u v := by
  induction u with
  | nil => intro v; unfold dist2; simp
  | cons a t ih =>
    intro v
    cases v with
    | nil => unfold dist2; simp
    | cons b w =>
      unfold dist2 at *
      simp only [List.zipWith_cons_cons, List.sum_cons]
      have h1 := ih w
      have h2 : 0 ≤ (a - b) * (a - b) := mul_self_nonneg _
      linarith

/-- In a list sorted by distance whose entries are all non-negative, every
zero-distance entry lies within the first z positions, where z counts the
zero-distance entries; hence it survives a take of any k at least z. -/
theorem mem_take_of_countP_zero_le (l : List (Nat × ℚ)) :
    ∀ (k : Nat), List.Sorted distLE l → (∀ x ∈ l, 0 ≤ x.2) →
      ∀ x ∈ l, x.2 = 0 → l.countP (fun y => decide (y.2 = 0)) ≤ k →
        x ∈ l.take k := by
  induction l with
  | nil => intro k _ _ x hx; exact absurd hx (List.not_mem_nil x)
  | cons a t ih =>
    intro k hsort hnn x hx hx0 hk
    cases k with
    | zero =>
      exfalso
      have hpos : 0 < (a :: t).countP (fun y => decide (y.2 = 0)) :=
        List.countP_pos_iff.mpr ⟨x, hx, by simp [hx0]⟩
      omega
    | succ k =>
      rw [List.take_succ_cons]
      rcases List.mem_cons.mp hx with hxa | hxt
      · exact hxa ▸ List.mem_cons_self _ _
      · have hca : ∀ b ∈ t, distLE a b := (List.sorted_cons.mp hsort).1
        have hst : List.Sorted distLE t := (List.sorted_cons.mp hsort).2
        have ha0 : a.2 = 0 := by
          have h1 : a.2 ≤ x.2 := hca x hxt
          have h2 : 0 ≤ a.2 := hnn a (List.mem_cons_self _ _)
          rw [hx0] at h1
          linarith
        have hcnt : t.countP (fun y => decide (y.2 = 0)) ≤ k := by
          rw [List.countP_cons] at hk
          simp only [ha0, decide_True, if_true] at hk
          omega
        exact List.mem_cons_of_mem a
          (ih k hst (fun y hy => hnn y (List.mem_cons_of_mem a hy)) x hxt hx0 hcnt)

/-- When primary-key ids are distinct, the SQL join finds exactly the row of a
member symbol: find? on its id returns that symbol. -/
theorem find?_id_of_nodup (l : List SymRow) (s : SymRow) :
    (l.map SymRow.id).Nodup → s ∈ l →
      l.find? (fun t => t.id == s.id) = some s := by
  induction l with
  | nil => intro _ hs; exact absurd hs (List.not_mem_nil s)
  | cons a t ih =>
    intro hnd hs
    rw [List.map_cons, List.nodup_cons] at hnd
    by_cases h : a.id = s.id
    · have heq : a = s := by
        rcases List.mem_cons.mp hs with hsa | hst
        · exact hsa.symm
        · exfalso
          exact hnd.1 (h ▸ List.mem_map.mpr ⟨s, hst, rfl⟩)
      rw [List.find?_cons_of_pos _ (by simp [h])]
      rw [heq]
    · have hst : s ∈ t := by
        rcases List.mem_cons.mp hs with hsa | hst
        · exfalso; apply h; rw [hsa]
        · exact hst
      rw [List.find?_cons_of_neg _ (by simp [h])]
      exact ih hnd.2 hst

/-- C5 (amended): a symbol inserted with embedding v is returned at distance 0
by a knn query with v itself whenever k is at least the number of stored
vectors at distance 0 from v; in particular for any k when no other stored
symbol shares the embedding v. -/
theorem c5_roundtrip_amended (db : DBState) (s : SymRow) (vr : VecRow)
    (v : List ℚ) (k : Nat) (hwf : WF db) (hs : s ∈ db.symbols)
    (hvr : vr ∈ db.vec_index) (hid : vr.id = s.id) (hemb : vr.emb = v)
    (hk : db.vec_index.countP (fun w => decide (dist2 v w.emb = 0)) ≤ k) :
    ∃ res, knn db v k = Except.ok res ∧ (s.path, s.line, s.name, (0 : ℚ)) ∈ res := by
  obtain ⟨hvs, hnd, hvd, hlt⟩ := hwf
  have hvlen : v.length = db.dim := hemb ▸ hvd vr hvr
  refine ⟨knnRows db v k, by unfold knn; rw [if_pos hvlen], ?_⟩
  have he0 : dist2 v vr.emb = 0 := by rw [hemb]; exact dist2_self v
  have he : (vr.id, dist2 v vr.emb) ∈ knnScored db v :=
    List.mem_map.mpr ⟨vr, hvr, rfl⟩
  have hes : (vr.id, dist2 v vr.emb) ∈ List.insertionSort distLE (knnScored db v) :=
    ((List.perm_insertionSort distLE _).mem_iff).mpr he
  have hcnt : (List.insertionSort distLE (knnScored db v)).countP
      (fun y => decide (y.2 = 0)) ≤ k := by
    rw [(List.perm_insertionSort distLE (knnScored db v)).countP_eq]
    unfold knnScored
    rw [List.countP_map]
    exact hk
  have hnn : ∀ x ∈ List.insertionSort distLE (knnScored db v), 0 ≤ x.2 := by
    intro x hx
    have hx2 : x ∈ knnScored db v := (List.perm_insertionSort distLE _).subset hx
    obtain ⟨w, hw, hweq⟩ := List.mem_map.mp hx2
    rw [← hweq]
    exact dist2_nonneg v w.emb
  have hetake : (vr.id, dist2 v vr.emb) ∈
      (List.insertionSort distLE (knnScored db v)).take k :=
    mem_take_of_countP_zero_le _ k (List.sorted_insertionSort distLE _) hnn
      _ hes he0 hcnt
  have hfind : db.symbols.find? (fun t => t.id == (vr.id, dist2 v vr.emb).1) = some s := by
    have h1 : (vr.id, dist2 v vr.emb).1 = s.id := hid
    rw [h1]
    exact find?_id_of_nodup db.symbols s hnd hs
  have hjoin : (s.path, s.line, s.name, (0 : ℚ)) ∈
      ((List.insertionSort distLE (knnScored db v)).take k).filterMap (fun r =>
        (db.symbols.find? (fun t => t.id == r.1)).map
          (fun t => (t.path, t.line, t.name, r.2))) := by
    apply List.mem_filterMap.mpr
    refine ⟨(vr.id, dist2 v vr.emb), hetake, ?_⟩
    rw [hfind]
    simp [he0]
  unfold knnRows
  exact ((List.perm_insertionSort resLE _).mem_iff).mpr hjoin

/-- Concrete store holding two symbols with identical embeddings, used to
refute the unrestricted round-trip claim. -/
def dbC5 : DBState :=
  ⟨1, [⟨1, "a.py", 1, "fn", "foo", "def foo(): pass"⟩,
      ⟨2, "b.py", 2, "fn", "bar", "def bar(): pass"⟩],
   [⟨1, [0]⟩, ⟨2, [0]⟩], 3⟩

/-- C5 counterexample: symbol id 2 sits in a well-formed store paired with
embedding [0], yet knn([0], 1) with k = 1 returns only the other symbol that
shares the same embedding, so the inserted symbol is not among the results
even though k is at least 1. -/
theorem c5_counterexample :
    (⟨2, "b.py", 2, "fn", "bar", "def bar(): pass"⟩ : SymRow) ∈ dbC5.symbols ∧
    (⟨2, [0]⟩ : VecRow) ∈ dbC5.vec_index ∧
    WF dbC5 ∧
    knn dbC5 [(0 : ℚ)] 1 = Except.ok [("a.py", 1, "foo", (0 : ℚ))] ∧
    ("b.py", 2, "bar", (0 : ℚ)) ∉ [("a.py", 1, "foo", (0 : ℚ))] := by
  refine ⟨by simp [dbC5], by simp [dbC5], by decide, ?_, by simp⟩
  unfold knn
  rw [if_pos (by decide : ([(0 : ℚ)]).length = dbC5.dim)]
  rw [show knnRows dbC5 [(0 : ℚ)] 1 = [("a.py", 1, "foo", (0 : ℚ))] by
    norm_num [knnRows, knnScored, dist2, dbC5, distLE, resLE]]

/-- Witness for the amended C5 at a store whose queried embedding is unique:
with k = 1 the inserted symbol is returned at distance 0. -/
theorem c5_witness :
    ∃ res, knn demoDB1 [(0 : ℚ)] 1 = Except.ok res ∧
      ("a.py", 1, "foo", (0 : ℚ)) ∈ res :=
  c5_roundtrip_amended demoDB1 ⟨1, "a.py", 1, "fn", "foo", "def foo(): pass"⟩
    ⟨1, [0]⟩ [(0 : ℚ)] 1 (by decide) (by simp [demoDB1]) (by simp [demoDB1])
    rfl rfl (by norm_num [demoDB1, dist2])

/-! ## Opening the store (src/db.rs, DB.open_read) -/

/-- Contents of the sqlite file at .cearch/index.sqlite: either a freshly
created empty database with no tables, or one carrying the cearch schema. -/
inductive SqliteFile where
  | empty : SqliteFile
  | withSchema (db : DBState) : SqliteFile
deriving DecidableEq

/-- Filesystem state relevant to DB.open_read at a given repository root:
whether the .cearch directory exists and what the index file holds, if it
exists at all. -/
structure OpenFS where
  cearchDir : Bool
  indexFile : Option SqliteFile
deriving DecidableEq

/-- Model of DB.open_read: it computes root/.cearch/index.sqlite and calls
Connection open with the rusqlite default flags READWRITE plus CREATE. With
the parent directory missing, sqlite cannot create the file and the open
fails with a generic cannot-open error; with the directory present but the
file missing, sqlite creates a new empty database file and the open succeeds.
No NotFoundError path exists. -/
def open_read (fs : OpenFS) : Except String (OpenFS × SqliteFile) :=
  if fs.cearchDir then
    match fs.indexFile with
    | some f => Except.ok (fs, f)
    | none => Except.ok ({ fs with indexFile := some SqliteFile.empty },
        SqliteFile.empty)
  else
    Except.error "unable to open database file"

/-- C2: evaluation of open_read at the failing input. With no index present
but the .cearch directory existing (the state produced by the init command
before any indexing), open_read succeeds and creates a new empty database
file, contradicting the requirement to fail with a NotFoundError. -/
theorem c2_open_read_creates_instead_of_failing :
    open_read { cearchDir := true, indexFile := none }
      = Except.ok ({ cearchDir := true, indexFile := some SqliteFile.empty },
          SqliteFile.empty) ∧
    open_read { cearchDir := false, indexFile := none }
      = Except.error "unable to open database file" :=
  ⟨rfl, rfl⟩

/-! ## The clean command (src/main.rs, Commands::Clean) -/

/-- Error kinds distinguished by the clean handler; notFound models
std::io::ErrorKind::NotFound and other stands for any different kind. -/
inductive IOErrorKind where
  | notFound : IOErrorKind
  | other : IOErrorKind
deriving DecidableEq

/-- Filesystem state relevant to the clean command: the .cearch directory and
the .gitignore contents, if that file exists. -/
structure CleanFS where
  cearchDir : Bool
  gitignore : Option String
deriving DecidableEq

/-- Model of std::fs::remove_dir_all on the .cearch directory: removing an
existing directory succeeds; removing an absent one fails with NotFound. -/
def remove_dir_all (fs : CleanFS) : CleanFS × Option IOErrorKind :=
  if fs.cearchDir then ({ fs with cearchDir := false }, none)
  else (fs, some IOErrorKind.notFound)

/-- Model of the gitignore rewrite performed on successful removal: drop the
.cearch entries from the file when it can be read. -/
def gitignoreCleanup (fs : CleanFS) : CleanFS :=
  match fs.gitignore with
  | none => fs
  | some contents =>
    let filtered := (contents.splitOn "\n").filter (fun l =>
      !(l.trim == ".cearch/" || l.trim == ".cearch"))
    let out := String.intercalate "\n" filtered
    { fs with gitignore := some (if out.isEmpty then "" else out ++ "\n") }

/-- Model of the clean command after the repository root is resolved: on a
removal error other than NotFound, exit with code 2; on a NotFound error, fall
through silently with exit code 0; on success, tidy .gitignore and exit 0. -/
def cleanHandle (res : CleanFS × Option IOErrorKind) : CleanFS × Nat :=
  match res with
  | (fs, some err) => if err ≠ IOErrorKind.notFound then (fs, 2) else (fs, 0)
  | (fs, none) => (gitignoreCleanup fs, 0)

def cleanCmd (fs : CleanFS) : CleanFS × Nat :=
  cleanHandle (remove_dir_all fs)

/-- C9: clean on a repository with no prior index (the .cearch directory is
already absent) succeeds as a no-op with exit code 0, leaving the filesystem
untouched, and only removal failures of a kind other than NotFound make the
command exit with an error. -/
theorem c9_clean_noop_when_absent (fs g : CleanFS) (err : IOErrorKind)
    (h : fs.cearchDir = false) (herr : err ≠ IOErrorKind.notFound) :
    cleanCmd fs = (fs, 0) ∧
    cleanHandle (g, some err) = (g, 2) := by
  constructor
  · unfold cleanCmd remove_dir_all
    rw [h]
    rfl
  · simp [cleanHandle, herr]

/-- Witness for C9 at a concrete filesystem with no .cearch directory and a
concrete removal failure of a kind other than NotFound. -/
theorem c9_witness :
    cleanCmd ⟨false, some ".cearch/\n"⟩ = (⟨false, some ".cearch/\n"⟩, 0) ∧
    cleanHandle (⟨true, none⟩, some IOErrorKind.other) = (⟨true, none⟩, 2) :=
  c9_clean_noop_when_absent ⟨false, some ".cearch/\n"⟩ ⟨true, none⟩
    IOErrorKind.other rfl (by simp)

/-! ## SrcSymbol extraction (src/symbols.rs) -/

/-- Kinds of symbols the extractor produces. -/
inductive SymbolKind where
  | Function : SymbolKind
  | Class : SymbolKind
deriving DecidableEq, Repr

/-- A symbol record as produced by enumerate_symbols_in_file. -/
structure SrcSymbol where
  path : String
  line : Nat
  kind : SymbolKind
  name : String
  code : String
deriving DecidableEq, Repr

/-- Per-language configuration record of the static registry; the grammar
function pointer is abstracted by the language name. -/
structure LanguageConfig where
  langName : String
  extensions : List String
  function_query : String
  class_query : Option String

/-- The static registry: Python with function and class queries, Rust with a
function query only. -/
def language_registry : List LanguageConfig :=
  [{ langName := "python"
     extensions := ["py"]
     function_query := "(function_definition name: (identifier) @name) @node"
     class_query := some "(class_definition name: (identifier) @name) @node" },
   { langName := "rust"
     extensions := ["rs"]
     function_query := "(function_item name: (identifier) @name) @node"
     class_query := none }]

/-- Final component of a path, the text after the last slash. -/
def fileNameOf (p : String) : String :=
  String.mk ((p.toList.reverse.takeWhile (fun c => c ≠ '/')).reverse)

/-- Extension of a path after the Rust Path::extension rules: the part of the
file name after the final dot, none when there is no dot or when the only dot
starts a hidden file name. -/
def extensionOf (p : String) : Option String :=
  let r := (fileNameOf p).toList.reverse
  let extRev := r.takeWhile (fun c => c ≠ '.')
  match r.dropWhile (fun c => c ≠ '.') with
  | [] => none
  | _ :: stemRev =>
    if stemRev.isEmpty then none else some (String.mk extRev.reverse)

/-- Model of language_config_for_path: take the extension and look it up in
the registry. -/
def language_config_for_path (p : String) : Option LanguageConfig :=
  (extensionOf p).bind (fun ext =>
    language_registry.find? (fun cfg => cfg.extensions.contains ext))

/-- A syntax-tree node as the extractor sees it: its byte span within the
source and its zero-based starting row. -/
structure Node where
  byteStart : Nat
  byteEnd : Nat
  row : Nat
deriving DecidableEq, Repr

/-- One query capture: the capture index together with the captured node. -/
structure Capture where
  index : Nat
  node : Node
deriving DecidableEq, Repr

/-- Capture indices resolved from a compiled query by name. -/
structure QueryInfo where
  nameIdx : Option Nat
  nodeIdx : Option Nat

/-- Oracle interface to the tree-sitter engine: setting the grammar on the
internal parsing state, parsing a source text, compiling a query, and running
a cursor over the tree to produce matches, each match being its capture list. -/
structure TSOracle where
  setLanguage : String → Bool
  parse : String → String → Option Unit
  queryNew : String → String → Option QueryInfo
  matchesFor : String → String → String → List (List Capture)

/-- Text of a byte span of the source, the model of source[node.byte_range()]. -/
def sliceText (source : String) (a b : Nat) : String :=
  String.mk ((source.toList.drop a).take (b - a))

/-- One step of the capture loop of run_query: a capture with the name index
overwrites the name text; otherwise one with the node index overwrites the
defining node. -/
def matchStep (source : String) (ni di : Nat)
    (acc : Option String × Option Node) (c : Capture) :
    Option String × Option Node :=
  if c.index == ni then (some (sliceText source c.node.byteStart c.node.byteEnd), acc.2)
  else if c.index == di then (acc.1, some c.node)
  else acc

/-- Model of the per-match body of run_query: fold the capture loop, and when
both the name text and the defining node were found, build the SrcSymbol from the
span and starting row of the defining node. -/
def processMatch (source path : String) (kind : SymbolKind) (ni di : Nat)
    (m : List Capture) : Option SrcSymbol :=
  match m.foldl (matchStep source ni di) (none, none) with
  | (some name, some dn) =>
    some { path := path, line := dn.row + 1, kind := kind, name := name,
           code := sliceText source dn.byteStart dn.byteEnd }
  | _ => none

/-- Model of the run_query closure: compile the query, resolve the two capture
indices, then map the match list through the per-match body. -/
def run_query (o : TSOracle) (langName source path querySrc : String)
    (kind : SymbolKind) : Except String (List SrcSymbol) :=
  match o.queryNew langName querySrc with
  | none => Except.error "invalid query"
  | some qi =>
    match qi.nameIdx with
    | none => Except.error "query missing @name capture"
    | some ni =>
      match qi.nodeIdx with
      | none => Except.error "query missing @node capture"
      | some di =>
        Except.ok ((o.matchesFor langName querySrc source).filterMap
          (processMatch source path kind ni di))

/-- Model of enumerate_symbols_in_file: resolve the language from the path
extension (unknown extensions yield an empty list), read the file, set the
grammar, parse, run the function query, then the class query when the
language has one, appending class symbols after function symbols. -/
def enumerate_symbols_in_file (o : TSOracle)
    (readFile : String → Except String String) (path : String) :
    Except String (List SrcSymbol) :=
  match language_config_for_path path with
  | none => Except.ok []
  | some cfg =>
    match readFile path with
    | Except.error e => Except.error e
    | Except.ok source =>
      if o.setLanguage cfg.langName then
        match o.parse cfg.langName source with
        | none => Except.error "failed to parse source"
        | some _ =>
          match run_query o cfg.langName source path cfg.function_query
              SymbolKind.Function with
          | Except.error e => Except.error e
          | Except.ok fsyms =>
            match cfg.class_query with
            | none => Except.ok fsyms
            | some cq =>
              match run_query o cfg.langName source path cq
                  SymbolKind.Class with
              | Except.error e => Except.error e
              | Except.ok csyms => Except.ok (fsyms ++ csyms)
      else Except.error "failed to set language"

/-- C7: a file path whose extension maps to no registered language, including
paths with no extension at all, yields an empty symbol list and no error,
whatever the filesystem and the parsing engine do. -/
theorem c7_unregistered_extension_yields_empty (o : TSOracle)
    (readFile : String → Except String String) (p : String)
    (h : language_config_for_path p = none) :
    enumerate_symbols_in_file o readFile p = Except.ok [] := by
  unfold enumerate_symbols_in_file
  rw [h]

/-- The last capture of a match satisfying a predicate: what an overwriting
single-pass loop retains. -/
def lastCapture (p : Capture → Bool) (m : List Capture) : Option Capture :=
  m.reverse.find? p

/-- One step of a loop that overwrites an optional accumulator whenever the
predicate holds. -/
def overwriteStep {β : Type} (p : Capture → Bool) (g : Capture → β)
    (acc : Option β) (c : Capture) : Option β :=
  if p c then some (g c) else acc

/-- An overwriting fold computes the image of the last matching capture, or
keeps its initial value when no capture matches. -/
theorem foldl_overwriteStep {β : Type} (p : Capture → Bool) (g : Capture → β)
    (m : List Capture) : ∀ (init : Option β),
    m.foldl (overwriteStep p g) init = ((lastCapture p m).map g).or init := by
  induction m using List.reverseRecOn with
  | nil => intro init; simp [lastCapture]
  | append_singleton l c ih =>
    intro init
    rw [List.foldl_append]
    simp only [List.foldl_cons, List.foldl_nil]
    unfold lastCapture at *
    rw [List.reverse_append]
    simp only [List.reverse_cons, List.reverse_nil, List.nil_append,
      List.singleton_append]
    by_cases hp : p c
    · rw [List.find?_cons_of_pos _ hp]
      unfold overwriteStep
      rw [if_pos hp]
      simp
    · rw [List.find?_cons_of_neg _ (by simp [hp])]
      unfold overwriteStep
      rw [if_neg hp]
      exact ih init

/-- The single-pass capture loop of run_query is the pair of two overwriting
folds: the name slot updates on the name index, the node slot updates on the
node index but only when the name index did not already claim the capture. -/
theorem matchStep_foldl_split (source : String) (ni di : Nat)
    (m : List Capture) : ∀ (n0 : Option String) (d0 : Option Node),
    m.foldl (matchStep source ni di) (n0, d0)
      = (m.foldl (overwriteStep (fun c => c.index == ni)
            (fun c => sliceText source c.node.byteStart c.node.byteEnd)) n0,
         m.foldl (overwriteStep (fun c => !(c.index == ni) && (c.index == di))
            (fun c => c.node)) d0) := by
  induction m with
  | nil => intro n0 d0; rfl
  | cons c t ih =>
    intro n0 d0
    simp only [List.foldl_cons]
    have hstep : matchStep source ni di (n0, d0) c
        = (overwriteStep (fun c => c.index == ni)
            (fun c => sliceText source c.node.byteStart c.node.byteEnd) n0 c,
           overwriteStep (fun c => !(c.index == ni) && (c.index == di))
            (fun c => c.node) d0 c) := by
      unfold matchStep overwriteStep
      by_cases h1 : (c.index == ni) = true
      · simp [h1]
      · by_cases h2 : (c.index == di) = true
        · simp [h1, h2]
        · simp [h1, h2]
    rw [hstep, ih]

/-- Field characterization of a symbol produced from one match: its name is
the text of the last name capture, its code is the verbatim text of the full
byte span of the last defining-node capture, and its line is one more than
the zero-based starting row of that node. -/
theorem processMatch_char (source path : String) (kind : SymbolKind)
    (ni di : Nat) (m : List Capture) (sym : SrcSymbol)
    (h : processMatch source path kind ni di m = some sym) :
    ∃ nc, lastCapture (fun c => c.index == ni) m = some nc ∧
    ∃ dc, lastCapture (fun c => !(c.index == ni) && (c.index == di)) m = some dc ∧
      sym.name = sliceText source nc.node.byteStart nc.node.byteEnd ∧
      sym.code = sliceText source dc.node.byteStart dc.node.byteEnd ∧
      sym.line = dc.node.row + 1 ∧ sym.path = path ∧ sym.kind = kind := by
  unfold processMatch at h
  rw [matchStep_foldl_split, foldl_overwriteStep, foldl_overwriteStep] at h
  cases hnc : lastCapture (fun c => c.index == ni) m with
  | none => rw [hnc] at h; simp at h
  | some nc =>
    cases hdc : lastCapture (fun c => !(c.index == ni) && (c.index == di)) m with
    | none => rw [hnc, hdc] at h; simp at h
    | some dc =>
      rw [hnc, hdc] at h
      simp only [Option.map_some', Option.or] at h
      refine ⟨nc, rfl, dc, rfl, ?_, ?_, ?_, ?_, ?_⟩ <;>
        (cases h; rfl)

/-- C8: for every match the query engine hands to the extractor that yields a
symbol, that symbol appears in the run_query output, its code is the verbatim
text of the full byte span of the defining node, its name is the text of the name
capture node, and its line is the 1-based starting line of the defining node
rather than of the name token. -/
theorem c8_symbol_fields_from_match (o : TSOracle)
    (langName source path querySrc : String) (kind : SymbolKind)
    (qi : QueryInfo) (ni di : Nat) (m : List Capture) (sym : SrcSymbol)
    (h1 : o.queryNew langName querySrc = some qi)
    (h2 : qi.nameIdx = some ni) (h3 : qi.nodeIdx = some di)
    (hm : m ∈ o.matchesFor langName querySrc source)
    (hsym : processMatch source path kind ni di m = some sym) :
    ∃ syms, run_query o langName source path querySrc kind = Except.ok syms ∧
      sym ∈ syms ∧
      ∃ nc, lastCapture (fun c => c.index == ni) m = some nc ∧
      ∃ dc, lastCapture (fun c => !(c.index == ni) && (c.index == di)) m = some dc ∧
        sym.name = sliceText source nc.node.byteStart nc.node.byteEnd ∧
        sym.code = sliceText source dc.node.byteStart dc.node.byteEnd ∧
        sym.line = dc.node.row + 1 := by
  refine ⟨(o.matchesFor langName querySrc source).filterMap
    (processMatch source path kind ni di), ?_, ?_, ?_⟩
  · simp only [run_query, h1, h2, h3]
  · exact List.mem_filterMap.mpr ⟨m, hm, hsym⟩
  · obtain ⟨nc, hnc, dc, hdc, hf1, hf2, hf3, _, _⟩ :=
      processMatch_char source path kind ni di m sym hsym
    exact ⟨nc, hnc, dc, hdc, hf1, hf2, hf3⟩

/-- Concrete tree-sitter oracle: one function match and one class match over a
two-line Python source. -/
def demoOracle : TSOracle :=
  { setLanguage := fun _ => true
    parse := fun _ _ => some ()
    queryNew := fun _ _ => some { nameIdx := some 0, nodeIdx := some 1 }
    matchesFor := fun _ q _ =>
      if q = "(function_definition name: (identifier) @name) @node" then
        [[⟨1, ⟨0, 15, 0⟩⟩, ⟨0, ⟨4, 7, 0⟩⟩]]
      else if q = "(class_definition name: (identifier) @name) @node" then
        [[⟨1, ⟨16, 31, 1⟩⟩, ⟨0, ⟨22, 25, 1⟩⟩]]
      else [] }

/-- Concrete filesystem reader holding one Python file. -/
def demoRead : String → Except String String := fun p =>
  if p = "m.py" then Except.ok "def foo(): pass\nclass Bar: pass"
  else Except.error "failed to read"

/-- Witness for C7 at two concrete paths, one with an unregistered extension
and one with no extension at all. -/
theorem c7_witness :
    enumerate_symbols_in_file demoOracle demoRead "notes.txt" = Except.ok [] ∧
    enumerate_symbols_in_file demoOracle demoRead "README" = Except.ok [] :=
  ⟨c7_unregistered_extension_yields_empty demoOracle demoRead "notes.txt" rfl,
   c7_unregistered_extension_yields_empty demoOracle demoRead "README" rfl⟩

/-- Witness for C8 at the concrete function match of the demo oracle. -/
theorem c8_witness :
    ∃ syms, run_query demoOracle "python" "def foo(): pass\nclass Bar: pass"
        "m.py" "(function_definition name: (identifier) @name) @node"
        SymbolKind.Function = Except.ok syms ∧
      (⟨"m.py", 1, SymbolKind.Function, "foo", "def foo(): pass"⟩ : SrcSymbol) ∈ syms ∧
      ∃ nc, lastCapture (fun c => c.index == 0)
          [⟨1, ⟨0, 15, 0⟩⟩, ⟨0, ⟨4, 7, 0⟩⟩] = some nc ∧
      ∃ dc, lastCapture (fun c => !(c.index == 0) && (c.index == 1))
          [⟨1, ⟨0, 15, 0⟩⟩, ⟨0, ⟨4, 7, 0⟩⟩] = some dc ∧
        (⟨"m.py", 1, SymbolKind.Function, "foo", "def foo(): pass"⟩ : SrcSymbol).name
          = sliceText "def foo(): pass\nclass Bar: pass" nc.node.byteStart nc.node.byteEnd ∧
        (⟨"m.py", 1, SymbolKind.Function, "foo", "def foo(): pass"⟩ : SrcSymbol).code
          = sliceText "def foo(): pass\nclass Bar: pass" dc.node.byteStart dc.node.byteEnd ∧
        (⟨"m.py", 1, SymbolKind.Function, "foo", "def foo(): pass"⟩ : SrcSymbol).line
          = dc.node.row + 1 :=
  c8_symbol_fields_from_match demoOracle "python" "def foo(): pass\nclass Bar: pass"
    "m.py" "(function_definition name: (identifier) @name) @node"
    SymbolKind.Function ⟨some 0, some 1⟩ 0 1
    [⟨1, ⟨0, 15, 0⟩⟩, ⟨0, ⟨4, 7, 0⟩⟩]
    ⟨"m.py", 1, SymbolKind.Function, "foo", "def foo(): pass"⟩
    rfl rfl rfl (by decide) (by decide)

/-- A symbol built by processMatch carries the kind the query run was given. -/
theorem processMatch_kind (source path : String) (kind : SymbolKind)
    (ni di : Nat) (m : List Capture) (sym : SrcSymbol)
    (h : processMatch source path kind ni di m = some sym) : sym.kind = kind := by
  obtain ⟨_, _, _, _, _, _, _, _, hk⟩ :=
    processMatch_char source path kind ni di m sym h
  exact hk

/-- Every symbol in a successful run_query output carries the kind of that
query run. -/
theorem run_query_kinds (o : TSOracle) (langName source path querySrc : String)
    (kind : SymbolKind) (syms : List SrcSymbol)
    (h : run_query o langName source path querySrc kind = Except.ok syms) :
    ∀ x ∈ syms, x.kind = kind := by
  unfold run_query at h
  cases hq : o.queryNew langName querySrc with
  | none =>
    simp only [hq] at h
    exact Except.noConfusion h
  | some qi =>
    simp only [hq] at h
    cases hni : qi.nameIdx with
    | none =>
      simp only [hni] at h
      exact Except.noConfusion h
    | some ni =>
      simp only [hni] at h
      cases hdi : qi.nodeIdx with
      | none =>
        simp only [hdi] at h
        exact Except.noConfusion h
      | some di =>
        simp only [hdi, Except.ok.injEq] at h
        subst h
        intro x hx
        obtain ⟨m, _, hm⟩ := List.mem_filterMap.mp hx
        exact processMatch_kind source path kind ni di m x hm

/-- C10: a successful extraction returns all Function symbols before all Class
symbols, because the function query runs to completion before the class query
and both push into the same output list. -/
theorem c10_functions_before_classes (o : TSOracle)
    (readFile : String → Except String String) (p : String)
    (syms : List SrcSymbol)
    (h : enumerate_symbols_in_file o readFile p = Except.ok syms) :
    ∃ fsyms csyms, syms = fsyms ++ csyms ∧
      (∀ x ∈ fsyms, x.kind = SymbolKind.Function) ∧
      (∀ x ∈ csyms, x.kind = SymbolKind.Class) := by
  unfold enumerate_symbols_in_file at h
  cases hcfg : language_config_for_path p with
  | none =>
    simp only [hcfg, Except.ok.injEq] at h
    subst h
    exact ⟨[], [], rfl, by simp, by simp⟩
  | some cfg =>
    simp only [hcfg] at h
    cases hread : readFile p with
    | error e =>
      simp only [hread] at h
      exact Except.noConfusion h
    | ok source =>
      simp only [hread] at h
      cases hset : o.setLanguage cfg.langName with
      | false => simp [hset] at h
      | true =>
        simp only [hset, if_true] at h
        cases hparse : o.parse cfg.langName source with
        | none =>
          simp only [hparse] at h
          exact Except.noConfusion h
        | some u =>
          simp only [hparse] at h
          cases hfq : run_query o cfg.langName source p cfg.function_query
              SymbolKind.Function with
          | error e =>
            simp only [hfq] at h
            exact Except.noConfusion h
          | ok fsyms =>
            simp only [hfq] at h
            cases hcq : cfg.class_query with
            | none =>
              simp only [hcq, Except.ok.injEq] at h
              subst h
              exact ⟨fsyms, [], by simp,
                run_query_kinds o cfg.langName source p cfg.function_query
                  SymbolKind.Function fsyms hfq, by simp⟩
            | some cq =>
              simp only [hcq] at h
              cases hcr : run_query o cfg.langName source p cq
                  SymbolKind.Class with
              | error e =>
                simp only [hcr] at h
                exact Except.noConfusion h
              | ok csyms =>
                simp only [hcr, Except.ok.injEq] at h
                subst h
                exact ⟨fsyms, csyms, rfl,
                  run_query_kinds o cfg.langName source p cfg.function_query
                    SymbolKind.Function fsyms hfq,
                  run_query_kinds o cfg.langName source p cq
                    SymbolKind.Class csyms hcr⟩

/-- Witness for C10 at the concrete Python file of the demo oracle, which
extracts one function followed by one class. -/
theorem c10_witness :
    ∃ fsyms csyms,
      [(⟨"m.py", 1, SymbolKind.Function, "foo", "def foo(): pass"⟩ : SrcSymbol),
       ⟨"m.py", 2, SymbolKind.Class, "Bar", "class Bar: pass"⟩] = fsyms ++ csyms ∧
      (∀ x ∈ fsyms, x.kind = SymbolKind.Function) ∧
      (∀ x ∈ csyms, x.kind = SymbolKind.Class) :=
  c10_functions_before_classes demoOracle demoRead "m.py"
    [⟨"m.py", 1, SymbolKind.Function, "foo", "def foo(): pass"⟩,
     ⟨"m.py", 2, SymbolKind.Class, "Bar", "class Bar: pass"⟩] rfl

/-! ## Indexing orchestrator (src/main.rs, Commands::Index) -/

/-- The embedding service at its interface: a batch of snippets to a vector
per snippet, or a batch-level error. -/
def Embedder : Type := List String → Except String (List (List ℚ))

/-- The kind strings the orchestrator writes into the store. -/
def kindStr : SymbolKind → String
  | SymbolKind.Function => "fn"
  | SymbolKind.Class => "class"

/-- Persist one embedded chunk: insert each (symbol, vector) pair; a
per-symbol insert failure is logged and skipped, the loop continues. -/
def insertChunk (db : DBState) (chunk : List SrcSymbol)
    (embs : List (List ℚ)) : DBState :=
  (chunk.zip embs).foldl (fun d se =>
    (insert_symbol d se.1.path se.1.line (kindStr se.1.kind)
      se.1.name se.1.code se.2).1) db

/-- The per-file batch loop of the Index command: take up to 64 symbols, embed
them; on a batch embed failure break out, abandoning this batch and the rest
of the file; on success insert the chunk and continue with the remainder. -/
def processBatches (embed : Embedder) (db : DBState) :
    List SrcSymbol → DBState
  | [] => db
  | s :: rest =>
    match embed (((s :: rest).take 64).map SrcSymbol.code) with
    | Except.error _ => db
    | Except.ok embs =>
      processBatches embed (insertChunk db ((s :: rest).take 64) embs)
        ((s :: rest).drop 64)
termination_by rem => rem.length
decreasing_by simp; omega

/-- The per-file step of the Index command: a parse failure is logged and the
file skipped; an empty extraction is skipped; otherwise the batch loop runs. -/
def indexFileStep (o : TSOracle) (readFile : String → Except String String)
    (embed : Embedder) (db : DBState) (f : String) : DBState :=
  match enumerate_symbols_in_file o readFile f with
  | Except.error _ => db
  | Except.ok syms => if syms.isEmpty then db else processBatches embed db syms

/-- The Index command loop over the tracked files. -/
def runIndex (o : TSOracle) (readFile : String → Except String String)
    (embed : Embedder) (db : DBState) (files : List String) : DBState :=
  files.foldl (indexFileStep o readFile embed) db

/-- C4: when embedding a batch fails, none of the symbols of that batch are
persisted and the batch is not retried: the batch loop stops with the store
exactly as it was, and the run proceeds to the following files unchanged. -/
theorem c4_failed_batch_never_persisted (embed : Embedder) (db : DBState)
    (s : SrcSymbol) (rest : List SrcSymbol) (e : String) (o : TSOracle)
    (readFile : String → Except String String) (f : String) (fs : List String)
    (hfail : embed (((s :: rest).take 64).map SrcSymbol.code) = Except.error e)
    (henum : enumerate_symbols_in_file o readFile f = Except.ok (s :: rest)) :
    processBatches embed db (s :: rest) = db ∧
    runIndex o readFile embed db (f :: fs) = runIndex o readFile embed db fs := by
  have ha : processBatches embed db (s :: rest) = db := by
    rw [processBatches, hfail]
  refine ⟨ha, ?_⟩
  unfold runIndex
  rw [List.foldl_cons]
  have hb : indexFileStep o readFile embed db f = db := by
    unfold indexFileStep
    rw [henum]
    simp only [List.isEmpty_cons, Bool.false_eq_true, if_false]
    exact ha
  rw [hb]

/-- C6: a file whose extraction fails, or extracts nothing, contributes
nothing and does not disturb the processing of the other files: the run over
any file list containing it equals the run with it removed. -/
theorem c6_parse_failure_isolated (o : TSOracle)
    (readFile : String → Except String String) (embed : Embedder)
    (db : DBState) (fs1 fs2 : List String) (bad : String)
    (hbad : (∃ e, enumerate_symbols_in_file o readFile bad = Except.error e) ∨
      enumerate_symbols_in_file o readFile bad = Except.ok []) :
    runIndex o readFile embed db (fs1 ++ bad :: fs2)
      = runIndex o readFile embed db (fs1 ++ fs2) := by
  have hstep : ∀ d, indexFileStep o readFile embed d bad = d := by
    intro d
    rcases hbad with ⟨e, he⟩ | he
    · unfold indexFileStep
      rw [he]
    · unfold indexFileStep
      rw [he]
      rfl
  unfold runIndex
  rw [List.foldl_append, List.foldl_append, List.foldl_cons, hstep]

/-- Embedder oracle that accepts every batch, mapping each snippet to a fixed
one-dimensional vector. -/
def demoEmbed : Embedder := fun codes => Except.ok (codes.map (fun _ => [0]))

/-- Embedder oracle that fails on every batch. -/
def failEmbed : Embedder := fun _ => Except.error "model error"

/-- The empty store of dimension 384 the Index command opens. -/
def demoDB0 : DBState := ⟨384, [], [], 1⟩

/-- Witness for C4 at the concrete demo file whose two symbols hit a failing
embedder on their first batch. -/
theorem c4_witness :
    processBatches failEmbed demoDB0
      [⟨"m.py", 1, SymbolKind.Function, "foo", "def foo(): pass"⟩,
       ⟨"m.py", 2, SymbolKind.Class, "Bar", "class Bar: pass"⟩] = demoDB0 ∧
    runIndex demoOracle demoRead failEmbed demoDB0 ["m.py", "other.py"]
      = runIndex demoOracle demoRead failEmbed demoDB0 ["other.py"] :=
  c4_failed_batch_never_persisted failEmbed demoDB0
    ⟨"m.py", 1, SymbolKind.Function, "foo", "def foo(): pass"⟩
    [⟨"m.py", 2, SymbolKind.Class, "Bar", "class Bar: pass"⟩]
    "model error" demoOracle demoRead "m.py" ["other.py"] rfl rfl

/-- Witness for C6 at a concrete two-file run whose first file is unreadable. -/
theorem c6_witness :
    runIndex demoOracle demoRead demoEmbed demoDB0 ["bad.py", "m.py"]
      = runIndex demoOracle demoRead demoEmbed demoDB0 ["m.py"] :=
  c6_parse_failure_isolated demoOracle demoRead demoEmbed demoDB0 [] ["m.py"]
    "bad.py" (Or.inl ⟨"failed to read", rfl⟩)
